import Mathlib

/-!
Verification of the concentrated-liquidity manager (liquidity_manager.py).

The Python source works with decimal.Decimal; this development embeds those
computations in exact rational arithmetic (ℚ).  Python int() truncation
toward zero is pyInt, raising paths are modelled with Option (none = the
call raises), and machine-external state (the chain, the farm, the state
file) is modelled by explicit oracle structures.
-/

namespace DefiBnb

/-! Tick and price math (liquidity_manager.py lines 462-468, 565-579, 3346-3368). -/

/-- The tick base 1.0001 as an exact rational. -/
def qbase : ℚ := 10001 / 10000

/-- Embeds tick_to_raw_price_pool_t1_t0: Decimal(1.0001) ** Decimal(tick),
integer-exponent Decimal powers taken exactly. -/
def tick_to_raw_price_pool_t1_t0 (tick : ℤ) : ℚ := qbase ^ tick

lemma one_lt_qbase : (1 : ℚ) < qbase := by norm_num [qbase]

lemma qbase_pos : (0 : ℚ) < qbase := by norm_num [qbase]

lemma exists_lt_qbase_pow_succ (p : ℚ) : ∃ n : ℕ, p < qbase ^ (n + 1) := by
  obtain ⟨n, hn⟩ := pow_unbounded_of_one_lt p one_lt_qbase
  exact ⟨n, lt_of_lt_of_le hn (pow_le_pow_right₀ (le_of_lt one_lt_qbase) (Nat.le_succ n))⟩

lemma exists_le_qbase_pow (p : ℚ) : ∃ n : ℕ, p ≤ qbase ^ n := by
  obtain ⟨n, hn⟩ := pow_unbounded_of_one_lt p one_lt_qbase
  exact ⟨n, le_of_lt hn⟩

/-- Exact-logarithm idealization of price_to_tick: the positivity guard
raising (none) on raw_price ≤ 0, then the floor of the exact base-1.0001
logarithm, characterized by qbase ^ t ≤ p < qbase ^ (t + 1) and computed by
bounded search (for p ≥ 1 the least n with p < qbase ^ (n + 1), for
0 < p < 1 the negation of the least n with 1 / p ≤ qbase ^ n).  This
idealization is used only where the analyzer embedding needs the raising
shape of the call (analyze_rebalance_2_positions); the program actually
evaluates math.floor(math.log(float(p), 1.0001)) in binary64 doubles,
which is modelled separately by price_to_tick_float below and does NOT
agree with the exact floor on negative ticks. -/
def price_to_tick (p : ℚ) : Option ℤ :=
  if 0 < p then
    if 1 ≤ p then
      some ((Nat.find (exists_lt_qbase_pow_succ p) : ℤ))
    else
      some (-(Nat.find (exists_le_qbase_pow p⁻¹) : ℤ))
  else none

/-! Binary64 model of the price_to_tick computation (lines 462-465).
CPython evaluates math.log(float(p), 1.0001) as log(float(p)) /
log(1.0001) in IEEE-754 binary64: the two decimal-to-double conversions
and the final division are correctly rounded, while the platform libm
logarithm is only assumed faithful (within a small bound of the true
logarithm), so it enters the model as a parameter. -/

/-- Round-to-nearest, ties-to-even, of a rational to an integer. -/
def roundHalfEven (q : ℚ) : ℤ :=
  if Int.fract q < 1 / 2 then ⌊q⌋
  else if 1 / 2 < Int.fract q then ⌊q⌋ + 1
  else if 2 ∣ ⌊q⌋ then ⌊q⌋ else ⌊q⌋ + 1

/-- IEEE-754 binary64 rounding of a rational: round-to-nearest-even at a
53-bit significand (overflow and subnormals lie outside the values used
here). -/
def floatRound (q : ℚ) : ℚ :=
  if q = 0 then 0
  else
    (if q < 0 then -1 else 1) *
      (roundHalfEven (|q| * 2 ^ (52 - Int.log 2 |q|)) : ℚ) * 2 ^ (Int.log 2 |q| - 52)

/-- Embeds price_to_tick under binary64 semantics: the positivity guard is
exact (it runs on the Decimal argument before any float conversion), then
math.log(float(p), 1.0001) is log(float(p)) / log(float(1.0001)) with both
logarithms taken by the platform libm (log_impl) and the division
correctly rounded, and math.floor of the resulting double is exact. -/
def price_to_tick_float (log_impl : ℚ → ℚ) (p : ℚ) : Option ℤ :=
  if p ≤ 0 then none
  else
    some ⌊floatRound (log_impl (floatRound p) / log_impl (floatRound (10001 / 10000)))⌋

/-- The value log_impl returns at q lies within eps of the true logarithm. -/
def FaithfulLogAt (log_impl : ℚ → ℚ) (q eps : ℚ) : Prop :=
  |((log_impl q : ℚ) : ℝ) - Real.log ((q : ℚ) : ℝ)| ≤ ((eps : ℚ) : ℝ)

/-- The binary64 value of the raw price at tick -1, float(1.0001 ** -1).
The program's 28-significant-digit Decimal intermediate rounds to the same
double as the exact 10000 / 10001, so the exact composition is evaluated
here. -/
def float_raw_tick_neg1 : ℚ := 9006298624878504 / 2 ^ 53

/-- The binary64 value of the literal 1.0001; it lies strictly below the
exact 1.0001, which biases the computed log ratio away from zero. -/
def float_1_0001 : ℚ := 4504049987333233 / 2 ^ 52

/-- A sample faithful libm: the doubles glibc returns for the two inputs
of the tick -1 round trip, each proved below to lie within log_eps of the
true logarithm. -/
def sample_log_impl (q : ℚ) : ℚ :=
  if q = float_1_0001 then 1844582179798837 / 2 ^ 64
  else -3689164359598693 / 2 ^ 65

/-- Error budget granted to the libm logarithm: 2 ^ (-63), eight ulps of
the logarithm values involved — far wider than any faithful (sub-ulp)
implementation needs. -/
def log_eps : ℚ := 1 / 2 ^ 63

/-- Degree-5 partial sum of the series of -log(1 - x), used to bracket the
true logarithms by exact rational arithmetic. -/
def taylor5 (x : ℚ) : ℚ := x + x ^ 2 / 2 + x ^ 3 / 3 + x ^ 4 / 4 + x ^ 5 / 5

/-- Static configuration of a LiquidityManager instance, as read in
LiquidityManager.__init__: token decimals used for calculations, the number
of managed slots and the position mode string. -/
structure LMConfig where
  decimals0_for_calcs : ℤ
  decimals1_for_calcs : ℤ
  num_managed_positions : ℕ
  position_mode : String
deriving DecidableEq, Repr

/-- Embeds _raw_price_pool_t1_t0_to_human_price_param_t1_t0 (lines 3358-3368):
human = (1 / raw) * 10 ^ (decimals1 - decimals0).  The zero check of the
source never fires on the positive rationals produced by
tick_to_raw_price_pool_t1_t0, so the total version is used for tick input. -/
def raw_price_pool_t1_t0_to_human_price_param_t1_t0 (cfg : LMConfig) (raw : ℚ) : ℚ :=
  raw⁻¹ * (10 : ℚ) ^ (cfg.decimals1_for_calcs - cfg.decimals0_for_calcs)

/-- Embeds _tick_to_human_price_param_t1_t0 (lines 565-579): tick to raw
price, then raw to human.  Note the conversion is strictly decreasing in the
tick: a larger tick gives a smaller human price. -/
def tick_to_human_price_param_t1_t0 (cfg : LMConfig) (tick : ℤ) : ℚ :=
  raw_price_pool_t1_t0_to_human_price_param_t1_t0 cfg (tick_to_raw_price_pool_t1_t0 tick)

/-- Embeds _human_price_param_t1_t0_to_raw_price_pool_t1_t0 (lines 3346-3356):
raises (none) on a zero human price, otherwise (1 / human) * 10 ^ (d0 - d1). -/
def human_price_param_t1_t0_to_raw_price_pool_t1_t0 (cfg : LMConfig) (human : ℚ) : Option ℚ :=
  if human = 0 then none
  else some (human⁻¹ * (10 : ℚ) ^ (cfg.decimals0_for_calcs - cfg.decimals1_for_calcs))

/-- Python int() applied to a Decimal: truncation toward zero. -/
def pyInt (q : ℚ) : ℤ := if 0 ≤ q then ⌊q⌋ else ⌈q⌉

/-! Capital allocator
(_calculate_desired_amounts_for_position_from_capital, lines 872-973).

The is_smart_rebalance flag is dropped: the source computes the identical
expressions in both of its branches.  The two out-of-range branches return
their zero side unclamped; the max(amount, 1) clamps at lines 969-970 are
indented inside the final else block and therefore execute only in the
price-inside-range branch.  Division by a zero current price (below-range
branch) and by a zero price range (degenerate tick pair in the inside
branch) raise in Decimal arithmetic and are modelled as none. -/

def calculate_desired_amounts_for_position_from_capital (cfg : LMConfig)
    (tick_lower tick_upper : ℤ) (current_price_param_t1_t0 capital_usdt : ℚ) :
    Option (ℤ × ℤ) :=
  let price_lower_human := tick_to_human_price_param_t1_t0 cfg tick_lower
  let price_upper_human := tick_to_human_price_param_t1_t0 cfg tick_upper
  let min_position_price := min price_lower_human price_upper_human
  let max_position_price := max price_lower_human price_upper_human
  if current_price_param_t1_t0 < min_position_price then
    if current_price_param_t1_t0 = 0 then none
    else
      some (0,
        pyInt ((capital_usdt / current_price_param_t1_t0) *
          (10 : ℚ) ^ cfg.decimals1_for_calcs))
  else if max_position_price < current_price_param_t1_t0 then
    some (pyInt (capital_usdt * (10 : ℚ) ^ cfg.decimals0_for_calcs), 0)
  else
    if max_position_price - min_position_price = 0 then none
    else
      let price_position :=
        (current_price_param_t1_t0 - min_position_price) /
          (max_position_price - min_position_price)
      let usdt_ratio := price_position
      let btcb_ratio := 1 - price_position
      let amount0 := pyInt ((capital_usdt * usdt_ratio) * (10 : ℚ) ^ cfg.decimals0_for_calcs)
      let amount1 :=
        pyInt (((capital_usdt * btcb_ratio) / current_price_param_t1_t0) *
          (10 : ℚ) ^ cfg.decimals1_for_calcs)
      some (max amount0 1, max amount1 1)

/-! Position ledger data model.  A slot of managed_positions_slots is either
None or a dict with keys nft_id, tickLower, tickUpper, liquidity. -/

/-- One managed on-chain position as recorded in a ledger slot. -/
structure Position where
  nft_id : ℕ
  tickLower : ℤ
  tickUpper : ℤ
  liquidity : ℤ
deriving DecidableEq, Repr

/-- The active (non-empty) slots, in order, as values. -/
def active_positions (slots : List (Option Position)) : List Position :=
  slots.filterMap id

/-- The number of empty slots (the source builds the index list of empty
slots; only its length is consulted by the analysis). -/
def empty_slots_count (slots : List (Option Position)) : ℕ :=
  (slots.filter (fun s => Option.isNone s)).length

/-! Rebalance policy (_analyze_rebalance_3_positions lines 1387-1517 and
_analyze_rebalance_2_positions lines 1279-1385). -/

/-- The rebalance_side strings used by the source: lower and upper in
3-position mode, below and above in 2-position mode. -/
inductive RebalanceSide where
  | lower
  | upper
  | below
  | above
deriving DecidableEq, Repr

/-- The outcome of an analysis call: its boolean return value together with
the self.positions_to_rebalance and self.rebalance_side attributes it sets. -/
structure AnalyzeResult where
  rebalance_needed : Bool
  positions_to_rebalance : ℕ
  rebalance_side : Option RebalanceSide
deriving DecidableEq, Repr

/-- Minimum of all tickLower values of a non-empty active list (min over
the mapped list in the source). -/
def min_tick_lower (a : Position) (rest : List Position) : ℤ :=
  (rest.map Position.tickLower).foldl min a.tickLower

/-- Maximum of all tickUpper values of a non-empty active list. -/
def max_tick_upper (a : Position) (rest : List Position) : ℤ :=
  (rest.map Position.tickUpper).foldl max a.tickUpper

/-- Embeds _analyze_rebalance_3_positions (lines 1387-1517).  With no
active position: full rebalance.  With exactly one active position only the
0.19 percent full-rebalance threshold is consulted, and both of the
fewer-than-two sub-branches below it return False with zero positions.
With two or more active positions the common boundary is converted to
human prices and the 0.19 / 0.08 / 0.02 percent cascade applies; the
price-inside-range case returns False in both of its sub-branches. -/
def analyze_rebalance_3_positions (cfg : LMConfig)
    (slots : List (Option Position)) (current_price : ℚ) : AnalyzeResult :=
  match active_positions slots with
  | [] => ⟨true, cfg.num_managed_positions, none⟩
  | a :: rest =>
    let active := a :: rest
    if active.length < 2 then
      let lowest_tick := min_tick_lower a rest
      let highest_tick := max_tick_upper a rest
      let lowest_price := tick_to_human_price_param_t1_t0 cfg lowest_tick
      let highest_price := tick_to_human_price_param_t1_t0 cfg highest_tick
      let min_boundary_price := min lowest_price highest_price
      let max_boundary_price := max lowest_price highest_price
      let deviation_pct : ℚ :=
        if max_boundary_price < current_price then
          ((current_price - max_boundary_price) / max_boundary_price) * 100
        else if current_price < min_boundary_price then
          ((min_boundary_price - current_price) / min_boundary_price) * 100
        else 0
      if 19 / 100 ≤ deviation_pct then
        ⟨true, cfg.num_managed_positions, none⟩
      else
        ⟨false, 0, none⟩
    else
      let lowest_tick := min_tick_lower a rest
      let highest_tick := max_tick_upper a rest
      let lowest_price := tick_to_human_price_param_t1_t0 cfg lowest_tick
      let highest_price := tick_to_human_price_param_t1_t0 cfg highest_tick
      let min_boundary_price := min lowest_price highest_price
      let max_boundary_price := max lowest_price highest_price
      let deviation_pct : ℚ :=
        if max_boundary_price < current_price then
          ((current_price - max_boundary_price) / max_boundary_price) * 100
        else if current_price < min_boundary_price then
          ((min_boundary_price - current_price) / min_boundary_price) * 100
        else 0
      let deviation_side : Option RebalanceSide :=
        if max_boundary_price < current_price then some RebalanceSide.above
        else if current_price < min_boundary_price then some RebalanceSide.below
        else none
      match deviation_side with
      | none => ⟨false, 0, none⟩
      | some ds =>
        let side :=
          if ds = RebalanceSide.above then RebalanceSide.lower else RebalanceSide.upper
        if 19 / 100 ≤ deviation_pct then ⟨true, cfg.num_managed_positions, none⟩
        else if 8 / 100 ≤ deviation_pct then
          ⟨true, min 2 active.length, some side⟩
        else if 2 / 100 ≤ deviation_pct then ⟨true, 1, some side⟩
        else ⟨false, 0, none⟩

/-- Embeds _analyze_rebalance_2_positions (lines 1279-1385).  Zero active
positions and one active position return False with zero positions (all
their sub-branches coincide); the one-active branch first converts the
current price to a tick, which raises (none) on a non-positive price.  With
exactly two active positions the deviation from the common tick range is
compared with the 0.04 and 0.02 percent thresholds.  The source's final
fall-through (more than two active positions) returns False leaving the two
attributes at their previous values; it is unreachable with a two-slot
ledger and is modelled as False with zero positions. -/
def analyze_rebalance_2_positions (cfg : LMConfig)
    (slots : List (Option Position)) (current_price : ℚ) : Option AnalyzeResult :=
  match active_positions slots with
  | [] => some ⟨false, 0, none⟩
  | [_pos] =>
    match human_price_param_t1_t0_to_raw_price_pool_t1_t0 cfg current_price with
    | none => none
    | some raw =>
      match price_to_tick raw with
      | none => none
      | some _current_tick => some ⟨false, 0, none⟩
  | p1 :: p2 :: rest =>
    let active := p1 :: p2 :: rest
    if active.length = 2 then
      match human_price_param_t1_t0_to_raw_price_pool_t1_t0 cfg current_price with
      | none => none
      | some raw =>
        match price_to_tick raw with
        | none => none
        | some current_tick =>
          let min_tick := min_tick_lower p1 (p2 :: rest)
          let max_tick := max_tick_upper p1 (p2 :: rest)
          let dev_and_dir : ℚ × Option Bool :=
            if current_tick < min_tick then
              let min_price := tick_to_human_price_param_t1_t0 cfg min_tick
              (((min_price - current_price) / min_price) * 100, some false)
            else if max_tick < current_tick then
              let max_price := tick_to_human_price_param_t1_t0 cfg max_tick
              (((current_price - max_price) / max_price) * 100, some true)
            else (0, none)
          let deviation_pct := dev_and_dir.1
          let rebalance_direction := dev_and_dir.2
          if 4 / 100 ≤ |deviation_pct| then some ⟨true, 2, none⟩
          else if 2 / 100 ≤ |deviation_pct| then
            if rebalance_direction = some true then
              some ⟨true, 1, some RebalanceSide.below⟩
            else if rebalance_direction = some false then
              some ⟨true, 1, some RebalanceSide.above⟩
            else some ⟨true, 0, none⟩
          else some ⟨false, 0, none⟩
    else some ⟨false, 0, none⟩

/-- Embeds analyze_rebalance_with_price (lines 1269-1277): dispatch on the
position_mode string. -/
def analyze_rebalance_with_price (cfg : LMConfig)
    (slots : List (Option Position)) (current_price : ℚ) : Option AnalyzeResult :=
  if cfg.position_mode = "2_positions" then
    analyze_rebalance_2_positions cfg slots current_price
  else
    some (analyze_rebalance_3_positions cfg slots current_price)

/-! Tick spacing lookup in _init_contracts (lines 308-318). -/

/-- Embeds the fee-tier dispatch: the known tiers map through the table and
every other tier falls into the else branch, which prints a warning and
assigns tick_spacing 1 (no exception is raised). -/
def tick_spacing_for_fee (fee_tier : ℕ) : ℕ :=
  if fee_tier = 100 then 1
  else if fee_tier = 500 then 10
  else if fee_tier = 2500 then 50
  else if fee_tier = 3000 then 60
  else if fee_tier = 10000 then 200
  else 1

/-! Ledger reconciliation (_update_managed_positions_status lines 2564-2633
and _cleanup_invalid_positions lines 984-1009).  On-chain reads are
modelled by an oracle. -/

/-- Outcome of nonf_pos_manager.functions.positions(nft_id).call(): a tuple
whose indices 5, 6, 7 are tickLower, tickUpper, liquidity; an Invalid token
ID / execution reverted error; or any other exception. -/
inductive ChainResp where
  | ok (tickLower tickUpper : ℤ) (liquidity : ℕ)
  | invalidToken
  | otherError
deriving DecidableEq, Repr

/-- Outcome of farm_contract.functions.userPositionInfos(nft_id).call():
a tuple whose index 0 is the farm liquidity, a falsy result (liquidity
taken as 0), or an exception (liquidity taken as 1, position treated as
active). -/
inductive FarmResp where
  | ok (liquidity : ℕ)
  | emptyResult
  | exn
deriving DecidableEq, Repr

/-- External chain state consulted by a reconciliation pass. -/
structure ChainOracle where
  positions : ℕ → ChainResp
  farm_address_set : Bool
  is_nft_in_farm : ℕ → Bool
  userPositionInfos : ℕ → FarmResp

/-- The current_liquidity computation of _update_managed_positions_status
(lines 2575-2592): the manager-reported liquidity, except that a zero with
a configured farm falls back to the staked liquidity (0 on a falsy farm
result, 1 when the farm query raises). -/
def update_slot_current_liquidity (o : ChainOracle) (nft_id : ℕ) (liq : ℕ) : ℕ :=
  if liq = 0 ∧ o.farm_address_set then
    if o.is_nft_in_farm nft_id then
      match o.userPositionInfos nft_id with
      | FarmResp.ok fl => fl
      | FarmResp.emptyResult => 0
      | FarmResp.exn => 1
    else liq
  else liq

/-- Per-slot behaviour of _update_managed_positions_status: re-read the
position, compute the farm-adjusted current liquidity, keep the slot (with
refreshed ticks and liquidity) only when that liquidity is positive, and
clear the slot on every exception path. -/
def update_slot_status (o : ChainOracle) (slot : Option Position) : Option Position :=
  match slot with
  | none => none
  | some p =>
    match o.positions p.nft_id with
    | ChainResp.invalidToken => none
    | ChainResp.otherError => none
    | ChainResp.ok tl tu liq =>
      let current_liquidity : ℕ := update_slot_current_liquidity o p.nft_id liq
      if 0 < current_liquidity then
        some ⟨p.nft_id, tl, tu, (current_liquidity : ℤ)⟩
      else none

/-- Embeds the slot mutation of _update_managed_positions_status over the
whole ledger (the returned active list and the follow-up top-up call do not
touch the slots). -/
def update_managed_positions_status (o : ChainOracle)
    (slots : List (Option Position)) : List (Option Position) :=
  slots.map (update_slot_status o)

/-- Per-slot behaviour of _cleanup_invalid_positions: clear the slot when
the on-chain liquidity is zero or any exception occurs, otherwise leave the
slot record untouched (its stored fields are not refreshed). -/
def cleanup_slot (o : ChainOracle) (slot : Option Position) : Option Position :=
  match slot with
  | none => none
  | some p =>
    match o.positions p.nft_id with
    | ChainResp.ok _ _ liq => if liq = 0 then none else some p
    | ChainResp.invalidToken => none
    | ChainResp.otherError => none

/-- Embeds the slot mutation of _cleanup_invalid_positions. -/
def cleanup_invalid_positions (o : ChainOracle)
    (slots : List (Option Position)) : List (Option Position) :=
  slots.map (cleanup_slot o)

/-! Persisted-state loading (_load_state_from_file lines 581-646 and the
slot bootstrap in LiquidityManager.__init__ lines 341-348). -/

/-- Shape of the parsed JSON state file, to the depth the loader inspects:
a top-level list of slots, a dict that may carry the
managed_positions_slots key, or any other JSON value.  The per-item
liquidity normalisation of the loader rewrites fields in place and never
changes the length or the None-ness of the items, so the items are carried
as already-normalised slots. -/
inductive StateJson where
  | jlist (xs : List (Option Position))
  | jdict (slotsEntry : Option StateJson)
  | jother

/-- Result of attempting to read and parse the state file: the file is
absent, json.load raises, or parsing succeeds with a value. -/
inductive StateFileRead where
  | missing
  | unparsable
  | parsed (v : StateJson)

/-- The state value the loader works on: the value under
managed_positions_slots when the top level is a dict carrying that key,
otherwise the top-level value itself (old format). -/
def state_of_full_state : StateJson → StateJson
  | StateJson.jdict (some v) => v
  | v => v

/-- Embeds _load_state_from_file: None when the file is missing, when
json.load raises, or when the extracted state is not a list of exactly
num_managed_positions entries; otherwise the slot list. -/
def load_state_from_file (num_managed_positions : ℕ) (file : StateFileRead) :
    Option (List (Option Position)) :=
  match file with
  | StateFileRead.missing => none
  | StateFileRead.unparsable => none
  | StateFileRead.parsed v =>
    match state_of_full_state v with
    | StateJson.jlist xs =>
      if xs.length = num_managed_positions then some xs else none
    | _ => none

/-- Embeds the slot bootstrap of LiquidityManager.__init__: the loaded
slots, or num_managed_positions empty slots when the loader returned None. -/
def initial_managed_positions_slots (num_managed_positions : ℕ)
    (file : StateFileRead) : List (Option Position) :=
  match load_state_from_file num_managed_positions file with
  | some slots => slots
  | none => List.replicate num_managed_positions none

/-! Orchestration entry point (decide_and_manage_liquidity lines 1519-1600).
The method body is one try block; except Exception at lines 1597-1600 logs
and falls off the end (returning None).  The body is modelled as a sequence
of steps over the manager state, each of which can continue, return early,
or raise; external effects come from an oracle. -/

/-- Mutable manager state touched by one call: the ledger slots. -/
structure LMState where
  managed_positions_slots : List (Option Position)
deriving DecidableEq, Repr

/-- Outcome of one step of the method body: continue with the state written
so far, return early with it, or raise with it (Python mutates in place, so
the state at the raise point is whatever was already written). -/
inductive StepOut (σ : Type) where
  | ok (s : σ)
  | ret (s : σ)
  | err (s : σ)
deriving DecidableEq, Repr

/-- One step of the method body. -/
def Step (σ : Type) : Type := σ → StepOut σ

/-- Runs the steps of the try block in order, propagating the first early
return or exception. -/
def run_in_try {σ : Type} : List (Step σ) → σ → StepOut σ
  | [], s => StepOut.ok s
  | f :: fs, s =>
    match f s with
    | StepOut.ok s2 => run_in_try fs s2
    | StepOut.ret s2 => StepOut.ret s2
    | StepOut.err s2 => StepOut.err s2

/-- The try/except wrapper: a raised exception is caught at the top level
and the method returns normally with the state as the exception left it. -/
def run_with_catch {σ : Type} (steps : List (Step σ)) (s : σ) : σ :=
  match run_in_try steps s with
  | StepOut.ok s2 => s2
  | StepOut.ret s2 => s2
  | StepOut.err s2 => s2

/-- External effects of one decide_and_manage_liquidity call. -/
structure DMOracles where
  /-- get_current_pool_state catches internally; none models the
  price-unavailable outcome that triggers the early return. -/
  pool_state_price : Option ℚ
  chain : ChainOracle
  /-- Behaviour of the awaited _initialize_or_update_managed_positions
  call, which performs chain reads and writes and can raise anywhere. -/
  update_positions : Step LMState
  /-- Behaviour of the executed branch (full rebalance, partial rebalance,
  or the fill-empty-slots path), which submits transactions and can raise. -/
  execute_decision : AnalyzeResult → Step LMState

/-- Step modelling lines 1528-1535: read the pool state and return early
when the price is unavailable. -/
def price_check_step (o : DMOracles) : Step LMState := fun s =>
  match o.pool_state_price with
  | none => StepOut.ret s
  | some _ => StepOut.ok s

/-- Step modelling line 1538: the _cleanup_invalid_positions pass. -/
def cleanup_step (o : DMOracles) : Step LMState := fun s =>
  StepOut.ok ⟨cleanup_invalid_positions o.chain s.managed_positions_slots⟩

/-- Step modelling line 1541: the awaited update of managed positions. -/
def update_step (o : DMOracles) : Step LMState := fun s => o.update_positions s

/-- Step modelling lines 1551-1595: run the rebalance analysis on the
current slots (a raise inside it propagates) and execute its decision. -/
def analyze_execute_step (cfg : LMConfig) (o : DMOracles) : Step LMState := fun s =>
  match o.pool_state_price with
  | none => StepOut.ret s
  | some price =>
    match analyze_rebalance_with_price cfg s.managed_positions_slots price with
    | none => StepOut.err s
    | some decision => o.execute_decision decision s

/-- The step sequence of the decide_and_manage_liquidity try block. -/
def dm_steps (cfg : LMConfig) (o : DMOracles) : List (Step LMState) :=
  [price_check_step o, cleanup_step o, update_step o, analyze_execute_step cfg o]

/-- Embeds decide_and_manage_liquidity: the try block around the step
sequence with the top-level except Exception handler. -/
def decide_and_manage_liquidity (cfg : LMConfig) (o : DMOracles) (s : LMState) : LMState :=
  run_with_catch (dm_steps cfg o) s

/-- Modelled from the spec and claim wording: execute the steps in order;
at the first step that raises, abort with no further mutation and return
normally with the state as last written; an early return behaves the same
way.  This is the reference abort semantics the caught run must refine. -/
def abort_at_first_failure {σ : Type} : List (Step σ) → σ → σ
  | [], s => s
  | f :: fs, s =>
    match f s with
    | StepOut.ok s2 => abort_at_first_failure fs s2
    | StepOut.ret s2 => s2
    | StepOut.err s2 => s2

/-! Deviation and threshold brackets as the spec states them (section 4.4),
used to settle the policy claims against the embedded code. -/

/-- Modelled from the spec: the deviation of the current price from the
union of the active ranges, as a fraction — 0 inside the human-price
interval, (price - high) / high above it, (low - price) / low below it.
The interval bounds come from the same tick-to-human-price conversion the
code uses. -/
def spec_deviation (cfg : LMConfig) (slots : List (Option Position))
    (current_price : ℚ) : ℚ :=
  match active_positions slots with
  | [] => 0
  | a :: rest =>
    let p1 := tick_to_human_price_param_t1_t0 cfg (min_tick_lower a rest)
    let p2 := tick_to_human_price_param_t1_t0 cfg (max_tick_upper a rest)
    let low := min p1 p2
    let high := max p1 p2
    if high < current_price then (current_price - high) / high
    else if current_price < low then (low - current_price) / low
    else 0

/-- The upper end of the active ranges' human-price interval (0 for an
empty ledger, where it is never consulted); the current price is above the
coverage exactly when this bound is below it. -/
def active_range_high (cfg : LMConfig) (slots : List (Option Position)) : ℚ :=
  match active_positions slots with
  | [] => 0
  | a :: rest =>
    max (tick_to_human_price_param_t1_t0 cfg (min_tick_lower a rest))
      (tick_to_human_price_param_t1_t0 cfg (max_tick_upper a rest))

/-- The rank of a rebalance decision in the scope order
no-op < 1 slot < 2 slots < full: the number of slots to be rebalanced when
a rebalance is needed, 0 otherwise. -/
def scope_rank (r : AnalyzeResult) : ℕ :=
  if r.rebalance_needed then r.positions_to_rebalance else 0

/-- The bracket characterization claimed for 3-position mode with at least
two active slots: the decision is exactly determined by where the spec
deviation falls among the thresholds 0.0002, 0.0008, 0.0019. -/
def three_slot_brackets (cfg : LMConfig) (slots : List (Option Position))
    (current_price : ℚ) : Prop :=
  let r := analyze_rebalance_3_positions cfg slots current_price
  let d := spec_deviation cfg slots current_price
  ((r.rebalance_needed = false ∧ r.positions_to_rebalance = 0) ↔ d < 2 / 10000) ∧
  ((r.rebalance_needed = true ∧ r.positions_to_rebalance = 1) ↔
    (2 / 10000 ≤ d ∧ d < 8 / 10000)) ∧
  ((r.rebalance_needed = true ∧ r.positions_to_rebalance = 2) ↔
    (8 / 10000 ≤ d ∧ d < 19 / 10000)) ∧
  ((r.rebalance_needed = true ∧
      r.positions_to_rebalance = cfg.num_managed_positions) ↔ 19 / 10000 ≤ d)

/-! Concrete fixtures used by counterexamples and witnesses. -/

/-- A 3-position-mode configuration with the deployment's 18/18 decimals. -/
def cfg3 : LMConfig := ⟨18, 18, 3, "3_positions"⟩

/-- A 2-position-mode configuration. -/
def cfg2 : LMConfig := ⟨18, 18, 2, "2_positions"⟩

/-- A ledger with a single active slot covering ticks [-10, 0]. -/
def slots_one_active : List (Option Position) := [some ⟨1, -10, 0, 5⟩, none, none]

/-- A ledger with two active slots covering ticks [-10, 0] and [0, 10]. -/
def slots_two_active : List (Option Position) :=
  [some ⟨1, -10, 0, 5⟩, some ⟨2, 0, 10, 5⟩, none]

/-- A current price lying 0.12 percent above the upper boundary price of
slots_one_active (that boundary is qbase ^ 10 under cfg3). -/
def price_above_12bp : ℚ := qbase ^ (10 : ℤ) * (10012 / 10000)

/-- A current price lying 0.05 percent above the same boundary. -/
def price_above_5bp : ℚ := qbase ^ (10 : ℤ) * (10005 / 10000)

/-- A chain oracle on which every position resolves with ticks [0, 10] and
liquidity 5, nothing is staked and farm queries raise. -/
def chain_liq5 : ChainOracle :=
  ⟨fun _ => ChainResp.ok 0 10 5, false, fun _ => false, fun _ => FarmResp.exn⟩

/-- A chain oracle on which every position resolves with ticks [0, 10] and
liquidity 7. -/
def chain_liq7 : ChainOracle :=
  ⟨fun _ => ChainResp.ok 0 10 7, false, fun _ => false, fun _ => FarmResp.exn⟩

/-- A slot record whose stored liquidity field is 0 (reachable via the
loader's liquidity-parse fallback) while the chain still reports positive
liquidity for its nft. -/
def stale_zero_pos : Position := ⟨1, 0, 10, 0⟩

/-- The bad-input condition of the loader claim: the file is missing,
unparsable, or its extracted state is not a list of exactly the configured
length. -/
def load_state_bad_input (num_managed_positions : ℕ) (file : StateFileRead) : Prop :=
  match file with
  | StateFileRead.missing => True
  | StateFileRead.unparsable => True
  | StateFileRead.parsed v =>
    match state_of_full_state v with
    | StateJson.jlist xs => xs.length ≠ num_managed_positions
    | _ => True

/-! Theorems. -/

/-- C5 counterexample: the fee tier 1234 is not in the lookup table, yet
initialization does not fail: the else branch assigns the default tick
spacing 1 and proceeds. -/
theorem tick_spacing_unknown_fee_does_not_fail :
    tick_spacing_for_fee 1234 = 1 ∧
      (1234 : ℕ) ∉ ([100, 500, 2500, 3000, 10000] : List ℕ) := by
  constructor
  · rfl
  · decide

/-- C5 (amended): tick spacing follows the fixed lookup table
100 to 1, 500 to 10, 2500 to 50, 3000 to 60, 10000 to 200, and every fee
tier outside the table receives the default spacing 1 (with a printed
warning) instead of failing fast. -/
theorem tick_spacing_table_with_default :
    tick_spacing_for_fee 100 = 1 ∧ tick_spacing_for_fee 500 = 10 ∧
      tick_spacing_for_fee 2500 = 50 ∧ tick_spacing_for_fee 3000 = 60 ∧
      tick_spacing_for_fee 10000 = 200 ∧
      ∀ fee : ℕ, fee ∉ ([100, 500, 2500, 3000, 10000] : List ℕ) →
        tick_spacing_for_fee fee = 1 := by
  refine ⟨rfl, rfl, rfl, rfl, rfl, ?_⟩
  intro fee h
  simp only [List.mem_cons, List.not_mem_nil, or_false, not_or] at h
  obtain ⟨h1, h2, h3, h4, h5⟩ := h
  simp [tick_spacing_for_fee, h1, h2, h3, h4, h5]

/-- C5 witness: the amended theorem applied at the unknown fee tier 777. -/
theorem tick_spacing_table_with_default_witness :
    (777 : ℕ) ∉ ([100, 500, 2500, 3000, 10000] : List ℕ) ∧
      tick_spacing_for_fee 777 = 1 :=
  ⟨by decide, tick_spacing_table_with_default.2.2.2.2.2 777 (by decide)⟩

/-- C3 counterexample: with both slots empty in 2-position mode,
analyze_rebalance_with_price returns False with zero positions to
rebalance — not a full rebalance of the N = 2 slots. -/
theorem analyze_all_empty_2_mode_not_full :
    analyze_rebalance_with_price cfg2 [none, none] 100000 =
      some ⟨false, 0, none⟩ ∧ 0 ≠ cfg2.num_managed_positions := by
  constructor
  · rfl
  · decide

/-- C3 (amended): with zero active positions, 3-position mode decides a
full rebalance (True with all num_managed_positions slots), while
2-position mode returns False with zero positions, deferring creation to
the fill-empty-slots path. -/
theorem analyze_all_empty_by_mode :
    ∀ (cfg : LMConfig) (slots : List (Option Position)) (price : ℚ),
      active_positions slots = [] →
      (cfg.position_mode ≠ "2_positions" →
        analyze_rebalance_with_price cfg slots price =
          some ⟨true, cfg.num_managed_positions, none⟩) ∧
      (cfg.position_mode = "2_positions" →
        analyze_rebalance_with_price cfg slots price = some ⟨false, 0, none⟩) := by
  intro cfg slots price hempty
  constructor
  · intro hmode
    simp [analyze_rebalance_with_price, hmode, analyze_rebalance_3_positions, hempty]
  · intro hmode
    simp [analyze_rebalance_with_price, hmode, analyze_rebalance_2_positions, hempty]

/-- C3 witness: the amended theorem applied to an all-empty 3-slot ledger. -/
theorem analyze_all_empty_by_mode_witness :
    active_positions [none, none, none] = [] ∧
      analyze_rebalance_with_price cfg3 [none, none, none] 100000 =
        some ⟨true, cfg3.num_managed_positions, none⟩ :=
  ⟨by decide, (analyze_all_empty_by_mode cfg3 [none, none, none] 100000 (by decide)).1
    (by decide)⟩

/-- C9: whenever the state file is missing, unparsable, or does not hold a
slot list of exactly the configured length, the loader returns None without
raising and the manager starts with all slots empty. -/
theorem load_state_falls_back_to_empty :
    ∀ (n : ℕ) (file : StateFileRead), load_state_bad_input n file →
      load_state_from_file n file = none ∧
      initial_managed_positions_slots n file = List.replicate n none := by
  intro n file hbad
  have hload : load_state_from_file n file = none := by
    cases file with
    | missing => rfl
    | unparsable => rfl
    | parsed v =>
      simp only [load_state_bad_input] at hbad
      simp only [load_state_from_file]
      cases hsv : state_of_full_state v with
      | jlist xs =>
        rw [hsv] at hbad
        simp [hbad]
      | jdict e => rfl
      | jother => rfl
  exact ⟨hload, by simp [initial_managed_positions_slots, hload]⟩

/-- C9 witness: a missing state file loads as None and yields three empty
slots. -/
theorem load_state_falls_back_to_empty_witness :
    load_state_bad_input 3 StateFileRead.missing ∧
      load_state_from_file 3 StateFileRead.missing = none ∧
      initial_managed_positions_slots 3 StateFileRead.missing =
        List.replicate 3 none :=
  ⟨True.intro, load_state_falls_back_to_empty 3 StateFileRead.missing True.intro⟩

lemma run_with_catch_eq_abort {σ : Type} (steps : List (Step σ)) (s : σ) :
    run_with_catch steps s = abort_at_first_failure steps s := by
  induction steps generalizing s with
  | nil => rfl
  | cons f fs ih =>
    simp only [run_with_catch, run_in_try, abort_at_first_failure]
    cases f s with
    | ok s2 => exact ih s2
    | ret s2 => rfl
    | err s2 => rfl

/-- C10: decide_and_manage_liquidity equals the abort-at-first-failure
reference semantics: whatever the oracles do, the call returns normally (a
plain state, never a propagated exception), and when a step raises, the
returned ledger is exactly the state as last written by the preceding
steps, with no further mutation in that call. -/
theorem decide_and_manage_returns_normally :
    ∀ (cfg : LMConfig) (o : DMOracles) (s : LMState),
      decide_and_manage_liquidity cfg o s =
        abort_at_first_failure (dm_steps cfg o) s := by
  intro cfg o s
  exact run_with_catch_eq_abort (dm_steps cfg o) s

/-- C7 counterexample: a slot whose stored liquidity field is 0 while the
chain still reports liquidity 5 for its nft survives
_cleanup_invalid_positions occupied and with recorded liquidity 0, so not
every occupied slot has recorded liquidity strictly greater than 0 after
that pass. -/
theorem cleanup_keeps_zero_recorded_liquidity :
    cleanup_invalid_positions chain_liq5 [some stale_zero_pos] =
      [some stale_zero_pos] ∧ stale_zero_pos.liquidity = 0 := by
  constructor
  · rfl
  · rfl

/-- C7 (amended): after _update_managed_positions_status every occupied
slot holds a position whose recorded liquidity is strictly positive, and
after _cleanup_invalid_positions every occupied slot holds a position whose
nft still resolves on the position manager with strictly positive on-chain
liquidity (its recorded fields are left unchanged). -/
theorem reconcile_occupied_slots_positive :
    ∀ (o : ChainOracle) (slots : List (Option Position)) (p : Position),
      (some p ∈ update_managed_positions_status o slots → 0 < p.liquidity) ∧
      (some p ∈ cleanup_invalid_positions o slots →
        ∃ tl tu liq, o.positions p.nft_id = ChainResp.ok tl tu liq ∧ 0 < liq) := by
  intro o slots p
  constructor
  · intro hmem
    obtain ⟨slot, _hslot, heq⟩ :=
      List.mem_map.mp (by simpa [update_managed_positions_status] using hmem)
    cases slot with
    | none => simp [update_slot_status] at heq
    | some q =>
      simp only [update_slot_status] at heq
      cases hresp : o.positions q.nft_id with
      | invalidToken => rw [hresp] at heq; simp at heq
      | otherError => rw [hresp] at heq; simp at heq
      | ok tl tu liq =>
        rw [hresp] at heq
        dsimp only at heq
        split at heq
        · obtain rfl := Option.some_injective _ heq
          rename_i hpos
          simpa using hpos
        · exact Option.noConfusion heq
  · intro hmem
    obtain ⟨slot, _hslot, heq⟩ :=
      List.mem_map.mp (by simpa [cleanup_invalid_positions] using hmem)
    cases slot with
    | none => simp [cleanup_slot] at heq
    | some q =>
      simp only [cleanup_slot] at heq
      cases hresp : o.positions q.nft_id with
      | invalidToken => rw [hresp] at heq; simp at heq
      | otherError => rw [hresp] at heq; simp at heq
      | ok tl tu liq =>
        rw [hresp] at heq
        dsimp only at heq
        split at heq
        · exact Option.noConfusion heq
        · obtain rfl := Option.some_injective _ heq
          rename_i hz
          exact ⟨tl, tu, liq, hresp, Nat.pos_of_ne_zero hz⟩

/-- C7 witness: the amended theorem applied to a one-slot ledger the status
update refreshes to liquidity 7. -/
theorem reconcile_occupied_slots_positive_witness :
    some (⟨1, 0, 10, 7⟩ : Position) ∈
        update_managed_positions_status chain_liq7 [some ⟨1, 0, 10, 3⟩] ∧
      0 < (⟨1, 0, 10, 7⟩ : Position).liquidity :=
  ⟨by decide,
    (reconcile_occupied_slots_positive chain_liq7 [some ⟨1, 0, 10, 3⟩]
      ⟨1, 0, 10, 7⟩).1 (by decide)⟩

lemma tick_to_human_price_pos (cfg : LMConfig) (t : ℤ) :
    0 < tick_to_human_price_param_t1_t0 cfg t := by
  unfold tick_to_human_price_param_t1_t0 raw_price_pool_t1_t0_to_human_price_param_t1_t0
    tick_to_raw_price_pool_t1_t0
  exact mul_pos (inv_pos.mpr (zpow_pos qbase_pos _)) (zpow_pos (by norm_num) _)

lemma tick_to_human_price_strict_anti (cfg : LMConfig) {t1 t2 : ℤ} (h : t1 < t2) :
    tick_to_human_price_param_t1_t0 cfg t2 < tick_to_human_price_param_t1_t0 cfg t1 := by
  unfold tick_to_human_price_param_t1_t0 raw_price_pool_t1_t0_to_human_price_param_t1_t0
    tick_to_raw_price_pool_t1_t0
  refine mul_lt_mul_of_pos_right ?_ (zpow_pos (by norm_num) _)
  exact inv_strictAnti₀ (zpow_pos qbase_pos _) (zpow_lt_zpow_right₀ one_lt_qbase h)

/-- C1 counterexample: for a range over ticks [0, 10] (decimals 18/18),
price 1/2 strictly below the range minimum and capital 1000, the allocator
returns zero of token0 (the quote token) and 2000 * 10 ^ 18 raw units of
token1 (the base token) — the opposite split of the claimed 100 percent
quote-token allocation. -/
theorem allocator_below_range_cex :
    calculate_desired_amounts_for_position_from_capital cfg3 0 10 (1 / 2) 1000 =
      some (0, 2000 * 10 ^ 18) ∧ (2000 * 10 ^ 18 : ℤ) ≠ 0 := by
  constructor
  · norm_num [calculate_desired_amounts_for_position_from_capital,
      tick_to_human_price_param_t1_t0, raw_price_pool_t1_t0_to_human_price_param_t1_t0,
      tick_to_raw_price_pool_t1_t0, qbase, cfg3, pyInt, min_def, max_def]
  · norm_num

/-- C1 (amended): for a non-degenerate range and positive capital, a
current price strictly below the range's minimum boundary price yields
zero of the quote token (token0) and 100 percent of the capital in the
base token (token1, capital / price converted to raw units); at a price
exactly equal to the minimum boundary the inside-range branch applies at
interpolation 0, clamping the quote amount to 1 raw unit and allocating
the same base-token amount (clamped to at least 1). -/
theorem allocator_below_range_all_base_token :
    ∀ (cfg : LMConfig) (tl tu : ℤ) (price capital : ℚ),
      tl < tu → 0 < price → 0 < capital →
      (price < min (tick_to_human_price_param_t1_t0 cfg tl)
          (tick_to_human_price_param_t1_t0 cfg tu) →
        calculate_desired_amounts_for_position_from_capital cfg tl tu price capital =
          some (0, pyInt ((capital / price) * (10 : ℚ) ^ cfg.decimals1_for_calcs))) ∧
      (price = min (tick_to_human_price_param_t1_t0 cfg tl)
          (tick_to_human_price_param_t1_t0 cfg tu) →
        calculate_desired_amounts_for_position_from_capital cfg tl tu price capital =
          some (1,
            max (pyInt ((capital / price) * (10 : ℚ) ^ cfg.decimals1_for_calcs)) 1)) := by
  intro cfg tl tu price capital hltu hprice _hcap
  have hanti : tick_to_human_price_param_t1_t0 cfg tu <
      tick_to_human_price_param_t1_t0 cfg tl := tick_to_human_price_strict_anti cfg hltu
  have hminmax : min (tick_to_human_price_param_t1_t0 cfg tl)
        (tick_to_human_price_param_t1_t0 cfg tu) <
      max (tick_to_human_price_param_t1_t0 cfg tl)
        (tick_to_human_price_param_t1_t0 cfg tu) := by
    rw [min_eq_right hanti.le, max_eq_left hanti.le]
    exact hanti
  constructor
  · intro hbelow
    simp only [calculate_desired_amounts_for_position_from_capital]
    rw [if_pos hbelow, if_neg (ne_of_gt hprice)]
  · intro heq
    subst heq
    simp only [calculate_desired_amounts_for_position_from_capital]
    rw [if_neg (lt_irrefl _), if_neg (not_lt.mpr min_le_max),
      if_neg (sub_ne_zero.mpr (ne_of_gt hminmax))]
    norm_num [pyInt]

/-- C1 witness: the amended theorem applied to the range over ticks
[0, 10] with price 1/4 and capital 100. -/
theorem allocator_below_range_all_base_token_witness :
    ((0 : ℤ) < 10 ∧ (0 : ℚ) < 1 / 4 ∧ (0 : ℚ) < 100 ∧
        (1 / 4 : ℚ) < min (tick_to_human_price_param_t1_t0 cfg3 0)
          (tick_to_human_price_param_t1_t0 cfg3 10)) ∧
      calculate_desired_amounts_for_position_from_capital cfg3 0 10 (1 / 4) 100 =
        some (0, pyInt ((100 / (1 / 4)) * (10 : ℚ) ^ cfg3.decimals1_for_calcs)) :=
  ⟨⟨by norm_num, by norm_num, by norm_num,
      by norm_num [tick_to_human_price_param_t1_t0,
        raw_price_pool_t1_t0_to_human_price_param_t1_t0,
        tick_to_raw_price_pool_t1_t0, qbase, cfg3, min_def]⟩,
    (allocator_below_range_all_base_token cfg3 0 10 (1 / 4) 100 (by norm_num)
        (by norm_num) (by norm_num)).1
      (by norm_num [tick_to_human_price_param_t1_t0,
        raw_price_pool_t1_t0_to_human_price_param_t1_t0,
        tick_to_raw_price_pool_t1_t0, qbase, cfg3, min_def])⟩

/-- C6: evaluation of the allocator at a failing input: for the range over
ticks [0, 10], price 1/2 (below the range) and capital 500, the returned
token0 amount is the literal 0 — not clamped to at least 1 raw unit,
because the max(amount, 1) lines are indented inside the inside-range
branch only, contradicting the adjacent source comment that a minimum of
1 wei is required for each token even out of range. -/
theorem allocator_out_of_range_returns_zero :
    calculate_desired_amounts_for_position_from_capital cfg3 0 10 (1 / 2) 500 =
      some (0, 10 ^ 21) ∧ ¬(1 ≤ (0 : ℤ)) := by
  constructor
  · norm_num [calculate_desired_amounts_for_position_from_capital,
      tick_to_human_price_param_t1_t0, raw_price_pool_t1_t0_to_human_price_param_t1_t0,
      tick_to_raw_price_pool_t1_t0, qbase, cfg3, pyInt, min_def, max_def]
  · norm_num

/-- Exact-semantics contrast for the round trip: under the exact-logarithm
idealization price_to_tick, converting any integer tick to a raw price
(1.0001 ^ tick) and back recovers the tick, and the call fails (none)
exactly on raw prices at or below 0.  This identity is what the spec
expected; the program's binary64 pipeline breaks it on negative ticks (see
price_to_tick_float_round_trip_cex). -/
theorem price_to_tick_round_trip :
    (∀ t : ℤ, price_to_tick (tick_to_raw_price_pool_t1_t0 t) = some t) ∧
    (∀ p : ℚ, price_to_tick p = none ↔ p ≤ 0) := by
  constructor
  · intro t
    have hpos : 0 < qbase ^ t := zpow_pos qbase_pos t
    unfold price_to_tick tick_to_raw_price_pool_t1_t0
    rw [if_pos hpos]
    by_cases ht : 0 ≤ t
    · have h1 : (1 : ℚ) ≤ qbase ^ t := one_le_zpow₀ one_lt_qbase.le ht
      rw [if_pos h1]
      have hfind : Nat.find (exists_lt_qbase_pow_succ (qbase ^ t)) = t.toNat := by
        rw [Nat.find_eq_iff]
        constructor
        · rw [← zpow_natCast qbase (t.toNat + 1),
            zpow_lt_zpow_iff_right₀ one_lt_qbase]
          push_cast
          omega
        · intro k hk
          rw [not_lt, ← zpow_natCast qbase (k + 1),
            zpow_le_zpow_iff_right₀ one_lt_qbase]
          push_cast
          omega
      rw [hfind, Option.some.injEq, Int.toNat_of_nonneg ht]
    · push_neg at ht
      have hlt1 : qbase ^ t < 1 := zpow_lt_one_of_neg₀ one_lt_qbase ht
      rw [if_neg (not_le.mpr hlt1)]
      have hfind : Nat.find (exists_le_qbase_pow (qbase ^ t)⁻¹) = (-t).toNat := by
        rw [Nat.find_eq_iff]
        constructor
        · rw [← zpow_neg, ← zpow_natCast qbase (-t).toNat,
            zpow_le_zpow_iff_right₀ one_lt_qbase]
          omega
        · intro k hk
          rw [not_le, ← zpow_neg, ← zpow_natCast qbase k,
            zpow_lt_zpow_iff_right₀ one_lt_qbase]
          omega
      rw [hfind, Option.some.injEq]
      omega
  · intro p
    unfold price_to_tick
    by_cases hp : 0 < p
    · rw [if_pos hp]
      constructor
      · intro h
        by_cases h1 : 1 ≤ p <;> simp [h1] at h
      · intro h
        linarith
    · rw [if_neg hp]
      simp [not_lt.mp hp]

lemma analyze3_eq_of_two_le (cfg : LMConfig) (slots : List (Option Position))
    (price : ℚ) (h2 : 2 ≤ (active_positions slots).length) :
    analyze_rebalance_3_positions cfg slots price =
      if 19 / 10000 ≤ spec_deviation cfg slots price then
        ⟨true, cfg.num_managed_positions, none⟩
      else if 8 / 10000 ≤ spec_deviation cfg slots price then
        ⟨true, 2,
          some (if active_range_high cfg slots < price then RebalanceSide.lower
            else RebalanceSide.upper)⟩
      else if 2 / 10000 ≤ spec_deviation cfg slots price then
        ⟨true, 1,
          some (if active_range_high cfg slots < price then RebalanceSide.lower
            else RebalanceSide.upper)⟩
      else ⟨false, 0, none⟩ := by
  rcases hact : active_positions slots with _ | ⟨a, _ | ⟨b, rest⟩⟩
  · rw [hact] at h2
    simp at h2
  · rw [hact] at h2
    simp at h2
  · have hlen : ¬ ((a :: b :: rest).length < 2) := by
      simp [List.length_cons]
    unfold analyze_rebalance_3_positions spec_deviation active_range_high
    rw [hact]
    dsimp only
    rw [if_neg hlen]
    set L := min (tick_to_human_price_param_t1_t0 cfg (min_tick_lower a (b :: rest)))
      (tick_to_human_price_param_t1_t0 cfg (max_tick_upper a (b :: rest))) with hL
    set H := max (tick_to_human_price_param_t1_t0 cfg (min_tick_lower a (b :: rest)))
      (tick_to_human_price_param_t1_t0 cfg (max_tick_upper a (b :: rest))) with hH
    have hmin2 : min 2 (a :: b :: rest).length = 2 := by
      simp [List.length_cons]
    by_cases hhi : H < price
    · set d := (price - H) / H with hd
      have e19 : ((19 : ℚ) / 100 ≤ d * 100) ↔ ((19 : ℚ) / 10000 ≤ d) := by
        constructor <;> intro h <;> linarith
      have e8 : ((8 : ℚ) / 100 ≤ d * 100) ↔ ((8 : ℚ) / 10000 ≤ d) := by
        constructor <;> intro h <;> linarith
      have e2 : ((2 : ℚ) / 100 ≤ d * 100) ↔ ((2 : ℚ) / 10000 ≤ d) := by
        constructor <;> intro h <;> linarith
      simp only [hhi, ite_true, e19, e8, e2, hmin2]
    · by_cases hlo : price < L
      · set d := (L - price) / L with hd
        have e19 : ((19 : ℚ) / 100 ≤ d * 100) ↔ ((19 : ℚ) / 10000 ≤ d) := by
          constructor <;> intro h <;> linarith
        have e8 : ((8 : ℚ) / 100 ≤ d * 100) ↔ ((8 : ℚ) / 10000 ≤ d) := by
          constructor <;> intro h <;> linarith
        have e2 : ((2 : ℚ) / 100 ≤ d * 100) ↔ ((2 : ℚ) / 10000 ≤ d) := by
          constructor <;> intro h <;> linarith
        simp only [hhi, hlo, ite_true, ite_false, e19, e8, e2, hmin2]
        rfl
      · simp only [hhi, hlo, ite_false]
        norm_num

/-- C2: in 3-slot mode, for every ledger with at least two active slots and
every current price, the decision of _analyze_rebalance_3_positions is
exactly the threshold brackets on the spec deviation (no rebalance below
0.0002, one slot in [0.0002, 0.0008), two slots in [0.0008, 0.0019), full
rebalance of all num_managed_positions slots at and above 0.0019), and for
the fixed coverage a larger deviation never yields a smaller rebalance
scope. -/
theorem analyze_3_positions_thresholds :
    ∀ (cfg : LMConfig) (slots : List (Option Position)) (price : ℚ),
      cfg.num_managed_positions = 3 →
      2 ≤ (active_positions slots).length →
      three_slot_brackets cfg slots price ∧
      (∀ price2 : ℚ,
        spec_deviation cfg slots price ≤ spec_deviation cfg slots price2 →
        scope_rank (analyze_rebalance_3_positions cfg slots price) ≤
          scope_rank (analyze_rebalance_3_positions cfg slots price2)) := by
  intro cfg slots price hN h2
  constructor
  · unfold three_slot_brackets
    rw [analyze3_eq_of_two_le cfg slots price h2]
    set d := spec_deviation cfg slots price with hdd
    by_cases h19 : (19 : ℚ) / 10000 ≤ d
    · simp only [h19, ite_true]
      exact ⟨iff_of_false (by simp) (by intro h; linarith),
        iff_of_false (by simp [hN]) (by rintro ⟨h1, h2b⟩; linarith),
        iff_of_false (by simp [hN]) (by rintro ⟨h1, h2b⟩; linarith),
        iff_of_true (by simp) trivial⟩
    · by_cases h8 : (8 : ℚ) / 10000 ≤ d
      · simp only [h19, h8, ite_true, ite_false]
        exact ⟨iff_of_false (by simp) (by intro h; linarith),
          iff_of_false (by simp) (by rintro ⟨h1, h2b⟩; linarith),
          iff_of_true (by simp) ⟨trivial, not_le.mp h19⟩,
          iff_of_false (by simp [hN]) not_false⟩
      · by_cases h2t : (2 : ℚ) / 10000 ≤ d
        · simp only [h19, h8, h2t, ite_true, ite_false]
          exact ⟨iff_of_false (by simp) (by intro h; linarith),
            iff_of_true (by simp) ⟨trivial, not_le.mp h8⟩,
            iff_of_false (by simp) (by rintro ⟨h1, h2b⟩; exact h1),
            iff_of_false (by simp [hN]) not_false⟩
        · simp only [h19, h8, h2t, ite_false]
          exact ⟨iff_of_true (by simp) (not_le.mp h2t),
            iff_of_false (by simp) (by rintro ⟨h1, h2b⟩; exact h1),
            iff_of_false (by simp) (by rintro ⟨h1, h2b⟩; exact h1),
            iff_of_false (by simp [hN]) not_false⟩
  · intro price2 hdd
    rw [analyze3_eq_of_two_le cfg slots price h2,
      analyze3_eq_of_two_le cfg slots price2 h2]
    split_ifs <;>
      first
      | (norm_num [scope_rank, hN]; done)
      | (exfalso; linarith)

/-- C2 witness: the threshold theorem applied to a two-active-slot ledger
at price 100000. -/
theorem analyze_3_positions_thresholds_witness :
    (cfg3.num_managed_positions = 3 ∧ 2 ≤ (active_positions slots_two_active).length) ∧
      three_slot_brackets cfg3 slots_two_active 100000 :=
  ⟨⟨rfl, by decide⟩,
    (analyze_3_positions_thresholds cfg3 slots_two_active 100000 rfl (by decide)).1⟩

/-- C4 counterexample: with exactly one active slot (ticks [-10, 0] under
18/18 decimals) and a price 0.12 percent above the coverage, the deviation
0.0012 lies in the claimed 2-slot bracket [0.0008, 0.0019), yet the policy
returns False with zero positions to rebalance: with fewer than two active
slots only the 0.0019 full-rebalance threshold is consulted. -/
theorem analyze_one_active_mid_deviation_no_rebalance :
    analyze_rebalance_3_positions cfg3 slots_one_active price_above_12bp =
      ⟨false, 0, none⟩ ∧
      8 / 10000 ≤ spec_deviation cfg3 slots_one_active price_above_12bp ∧
      spec_deviation cfg3 slots_one_active price_above_12bp < 19 / 10000 := by
  have hact : active_positions slots_one_active = [(⟨1, -10, 0, 5⟩ : Position)] := by
    decide
  refine ⟨?_, ?_, ?_⟩
  · unfold analyze_rebalance_3_positions
    rw [hact]
    norm_num [min_tick_lower, max_tick_upper, tick_to_human_price_param_t1_t0,
      raw_price_pool_t1_t0_to_human_price_param_t1_t0, tick_to_raw_price_pool_t1_t0,
      qbase, cfg3, price_above_12bp, min_def, max_def]
  · unfold spec_deviation
    rw [hact]
    norm_num [min_tick_lower, max_tick_upper, tick_to_human_price_param_t1_t0,
      raw_price_pool_t1_t0_to_human_price_param_t1_t0, tick_to_raw_price_pool_t1_t0,
      qbase, cfg3, price_above_12bp, min_def, max_def]
  · unfold spec_deviation
    rw [hact]
    norm_num [min_tick_lower, max_tick_upper, tick_to_human_price_param_t1_t0,
      raw_price_pool_t1_t0_to_human_price_param_t1_t0, tick_to_raw_price_pool_t1_t0,
      qbase, cfg3, price_above_12bp, min_def, max_def]

/-- C4 (amended): with exactly one active slot the deviation is computed by
the same boundary formula, but only the full-rebalance threshold 0.0019 is
consulted: below it the analysis returns False with zero positions (the
empty slots are then filled), and at or above it a full rebalance of all
slots; the 1-slot and 2-slot brackets are reachable only with at least two
active slots. -/
theorem analyze_3_one_active_only_full_threshold :
    ∀ (cfg : LMConfig) (slots : List (Option Position)) (price : ℚ),
      (active_positions slots).length = 1 →
      (spec_deviation cfg slots price < 19 / 10000 →
        analyze_rebalance_3_positions cfg slots price = ⟨false, 0, none⟩) ∧
      (19 / 10000 ≤ spec_deviation cfg slots price →
        analyze_rebalance_3_positions cfg slots price =
          ⟨true, cfg.num_managed_positions, none⟩) := by
  intro cfg slots price h1
  rcases hact : active_positions slots with _ | ⟨a, rest⟩
  · rw [hact] at h1
    simp at h1
  · have hrest : rest = [] := by
      rw [hact] at h1
      simpa using h1
    subst hrest
    unfold analyze_rebalance_3_positions spec_deviation
    rw [hact]
    dsimp only
    rw [if_pos (by norm_num : ([a] : List Position).length < 2)]
    set L := min (tick_to_human_price_param_t1_t0 cfg (min_tick_lower a []))
      (tick_to_human_price_param_t1_t0 cfg (max_tick_upper a [])) with hL
    set H := max (tick_to_human_price_param_t1_t0 cfg (min_tick_lower a []))
      (tick_to_human_price_param_t1_t0 cfg (max_tick_upper a [])) with hH
    by_cases hhi : H < price
    · set d := (price - H) / H with hd
      have e19 : ((19 : ℚ) / 100 ≤ d * 100) ↔ ((19 : ℚ) / 10000 ≤ d) := by
        constructor <;> intro h <;> linarith
      simp only [hhi, ite_true, e19]
      constructor
      · intro hdlt
        rw [if_neg (not_le.mpr hdlt)]
      · intro hdge
        rw [if_pos hdge]
    · by_cases hlo : price < L
      · set d := (L - price) / L with hd
        have e19 : ((19 : ℚ) / 100 ≤ d * 100) ↔ ((19 : ℚ) / 10000 ≤ d) := by
          constructor <;> intro h <;> linarith
        simp only [hhi, hlo, ite_true, ite_false, e19]
        constructor
        · intro hdlt
          rw [if_neg (not_le.mpr hdlt)]
        · intro hdge
          rw [if_pos hdge]
      · simp only [hhi, hlo, ite_false]
        constructor
        · intro hdlt
          rw [if_neg (by norm_num : ¬((19 : ℚ) / 100 ≤ 0))]
        · intro hdge
          exfalso
          linarith

/-- C4 witness: the amended theorem applied to the one-active-slot ledger
at a price 0.05 percent above the coverage (deviation 0.0005 below the
full-rebalance threshold). -/
theorem analyze_3_one_active_only_full_threshold_witness :
    ((active_positions slots_one_active).length = 1 ∧
        spec_deviation cfg3 slots_one_active price_above_5bp < 19 / 10000) ∧
      analyze_rebalance_3_positions cfg3 slots_one_active price_above_5bp =
        ⟨false, 0, none⟩ :=
  ⟨⟨by decide,
      by
        have hact : active_positions slots_one_active =
            [(⟨1, -10, 0, 5⟩ : Position)] := by decide
        unfold spec_deviation
        rw [hact]
        norm_num [min_tick_lower, max_tick_upper, tick_to_human_price_param_t1_t0,
          raw_price_pool_t1_t0_to_human_price_param_t1_t0, tick_to_raw_price_pool_t1_t0,
          qbase, cfg3, price_above_5bp, min_def, max_def]⟩,
    (analyze_3_one_active_only_full_threshold cfg3 slots_one_active price_above_5bp
        (by decide)).1
      (by
        have hact : active_positions slots_one_active =
            [(⟨1, -10, 0, 5⟩ : Position)] := by decide
        unfold spec_deviation
        rw [hact]
        norm_num [min_tick_lower, max_tick_upper, tick_to_human_price_param_t1_t0,
          raw_price_pool_t1_t0_to_human_price_param_t1_t0, tick_to_raw_price_pool_t1_t0,
          qbase, cfg3, price_above_5bp, min_def, max_def])⟩

lemma int_log2_eq {r : ℚ} {e : ℤ} (hr : 0 < r) (h1 : (2 : ℚ) ^ e ≤ r)
    (h2 : r < (2 : ℚ) ^ (e + 1)) : Int.log 2 r = e := by
  have ha : ((2 : ℕ) : ℚ) ^ e ≤ r := by exact_mod_cast h1
  have hb : r < ((2 : ℕ) : ℚ) ^ (e + 1) := by exact_mod_cast h2
  have u1 := (Int.zpow_le_iff_le_log (by norm_num : (1 : ℕ) < 2) hr).mp ha
  have u2 := (Int.lt_zpow_iff_log_lt (by norm_num : (1 : ℕ) < 2) hr).mp hb
  omega

lemma roundHalfEven_near (q : ℚ) : |(roundHalfEven q : ℚ) - q| ≤ 1 / 2 := by
  have hf1 : (⌊q⌋ : ℚ) ≤ q := Int.floor_le q
  have hf2 : q < ⌊q⌋ + 1 := Int.lt_floor_add_one q
  unfold roundHalfEven
  split_ifs with h1 h2 h3
  · simp only [Int.fract] at h1
    rw [abs_le]
    constructor <;> linarith
  · simp only [Int.fract] at h1 h2
    rw [abs_le]
    constructor <;> push_cast <;> linarith
  · simp only [Int.fract] at h1 h2
    rw [abs_le]
    constructor <;> linarith
  · simp only [Int.fract] at h1 h2
    rw [abs_le]
    constructor <;> push_cast <;> linarith

lemma floatRound_pos_eval {q : ℚ} {e m : ℤ} (hq : 0 < q)
    (h1 : (2 : ℚ) ^ e ≤ q) (h2 : q < (2 : ℚ) ^ (e + 1))
    (hm : roundHalfEven (q * 2 ^ (52 - e)) = m) :
    floatRound q = (m : ℚ) * 2 ^ (e - 52) := by
  unfold floatRound
  rw [if_neg (ne_of_gt hq), if_neg (not_lt.mpr hq.le), abs_of_pos hq,
    int_log2_eq hq h1 h2, hm, one_mul]

lemma floatRound_near_pos {q : ℚ} (hq : 0 < q) :
    |floatRound q - q| ≤ q / 2 ^ 52 := by
  unfold floatRound
  rw [if_neg (ne_of_gt hq), if_neg (not_lt.mpr hq.le), abs_of_pos hq, one_mul]
  set e := Int.log 2 q with he
  have h2e : (2 : ℚ) ^ e ≤ q := by
    have := Int.zpow_log_le_self (b := 2) (by norm_num) hq
    exact_mod_cast this
  have hsplit : (roundHalfEven (q * 2 ^ (52 - e)) : ℚ) * 2 ^ (e - 52) - q =
      ((roundHalfEven (q * 2 ^ (52 - e)) : ℚ) - q * 2 ^ (52 - e)) * 2 ^ (e - 52) := by
    rw [sub_mul, mul_assoc, ← zpow_add₀ (by norm_num : (2 : ℚ) ≠ 0)]
    norm_num
  rw [hsplit, abs_mul, abs_of_pos (zpow_pos (by norm_num : (0:ℚ) < 2) _)]
  calc |(roundHalfEven (q * 2 ^ (52 - e)) : ℚ) - q * 2 ^ (52 - e)| * 2 ^ (e - 52)
      ≤ (1 / 2) * 2 ^ (e - 52) := by
        exact mul_le_mul_of_nonneg_right (roundHalfEven_near _)
          (le_of_lt (zpow_pos (by norm_num) _))
    _ = 2 ^ e / 2 ^ 53 := by
        rw [zpow_sub₀ (by norm_num : (2 : ℚ) ≠ 0)]
        norm_num
        ring
    _ ≤ q / 2 ^ 53 := by gcongr
    _ ≤ q / 2 ^ 52 := by gcongr <;> norm_num

lemma floatRound_neg_arg (q : ℚ) : floatRound (-q) = -floatRound q := by
  rcases lt_trichotomy q 0 with hneg | hz | hpos
  · unfold floatRound
    rw [if_neg (neg_ne_zero.mpr hneg.ne), if_neg hneg.ne,
      if_neg (not_lt.mpr (by linarith : (0 : ℚ) ≤ -q)), if_pos hneg, abs_neg]
    ring
  · subst hz
    simp [floatRound]
  · unfold floatRound
    rw [if_neg (neg_ne_zero.mpr hpos.ne.symm), if_neg hpos.ne.symm,
      if_pos (by linarith : -q < 0), if_neg (not_lt.mpr hpos.le), abs_neg]
    ring

lemma floatRound_near {q : ℚ} (hq : q ≠ 0) :
    |floatRound q - q| ≤ |q| / 2 ^ 52 := by
  rcases lt_or_gt_of_ne hq with hneg | hpos
  · have h := floatRound_near_pos (q := -q) (by linarith)
    rw [floatRound_neg_arg] at h
    rw [abs_of_neg hneg]
    calc |floatRound q - q| = |(-(floatRound q - q))| := (abs_neg _).symm
      _ = |(-floatRound q - -q)| := by ring_nf
      _ ≤ -q / 2 ^ 52 := h
  · rw [abs_of_pos hpos]
    exact floatRound_near_pos hpos


lemma floatRound_raw_neg1 :
    floatRound (tick_to_raw_price_pool_t1_t0 (-1)) = float_raw_tick_neg1 := by
  have hval : tick_to_raw_price_pool_t1_t0 (-1) = 10000 / 10001 := by
    norm_num [tick_to_raw_price_pool_t1_t0, qbase]
  have hm : roundHalfEven ((10000 / 10001 : ℚ) * 2 ^ ((52 : ℤ) - (-1))) =
      9006298624878504 := by
    have harg : (10000 / 10001 : ℚ) * 2 ^ ((52 : ℤ) - (-1)) =
        90071992547409920000 / 10001 := by
      norm_num
    rw [harg]
    have hfl : (⌊(90071992547409920000 / 10001 : ℚ)⌋ : ℤ) = 9006298624878504 := by
      norm_num
    unfold roundHalfEven
    rw [if_pos (by simp only [Int.fract]; rw [hfl]; norm_num)]
    exact hfl
  have h := floatRound_pos_eval (q := (10000 / 10001 : ℚ)) (e := -1)
    (m := 9006298624878504) (by norm_num) (by norm_num) (by norm_num) hm
  rw [hval, h, float_raw_tick_neg1]
  norm_num

lemma floatRound_1_0001 : floatRound ((10001 : ℚ) / 10000) = float_1_0001 := by
  have hm : roundHalfEven ((10001 / 10000 : ℚ) * 2 ^ ((52 : ℤ) - 0)) =
      4504049987333233 := by
    have harg : (10001 / 10000 : ℚ) * 2 ^ ((52 : ℤ) - 0) =
        45040499873332330496 / 10000 := by
      norm_num
    rw [harg]
    have hfl : (⌊(45040499873332330496 / 10000 : ℚ)⌋ : ℤ) = 4504049987333233 := by
      norm_num
    unfold roundHalfEven
    rw [if_pos (by simp only [Int.fract]; rw [hfl]; norm_num)]
    exact hfl
  have h := floatRound_pos_eval (q := (10001 / 10000 : ℚ)) (e := 0)
    (m := 4504049987333233) (by norm_num) (by norm_num) (by norm_num) hm
  rw [h, float_1_0001]
  norm_num

lemma log_one_sub_near (x : ℚ) (hx0 : |x| < 1) :
    |((taylor5 x : ℚ) : ℝ) + Real.log (1 - (x : ℝ))| ≤
      ((|x| ^ 6 / (1 - |x|) : ℚ) : ℝ) := by
  have hxr : |(x : ℝ)| < 1 := by
    rw [← Rat.cast_abs]
    exact_mod_cast hx0
  have h := Real.abs_log_sub_add_sum_range_le hxr 5
  have hs : (∑ i ∈ Finset.range 5, (x : ℝ) ^ (i + 1) / ((i : ℝ) + 1)) =
      ((taylor5 x : ℚ) : ℝ) := by
    simp [Finset.sum_range_succ, taylor5]
    ring
  rw [hs] at h
  have hr : (|x| ^ 6 / (1 - |x|) : ℚ) = |x| ^ (5 + 1) / (1 - |x|) := by norm_num
  rw [hr, Rat.cast_div, Rat.cast_pow, Rat.cast_abs, Rat.cast_sub, Rat.cast_one,
    Rat.cast_abs]
  exact h
lemma log_raw_near :
    |((-(taylor5 (1 - float_raw_tick_neg1)) : ℚ) : ℝ) -
        Real.log ((float_raw_tick_neg1 : ℚ) : ℝ)| ≤ ((1 / 2 ^ 76 : ℚ) : ℝ) := by
  have hxpos : (0 : ℚ) < 1 - float_raw_tick_neg1 := by
    rw [float_raw_tick_neg1]
    norm_num
  have hx0 : |(1 - float_raw_tick_neg1 : ℚ)| < 1 := by
    rw [abs_of_pos hxpos, float_raw_tick_neg1]
    norm_num
  have h := log_one_sub_near (1 - float_raw_tick_neg1) hx0
  have h1r : (1 : ℝ) - ((1 - float_raw_tick_neg1 : ℚ) : ℝ) =
      ((float_raw_tick_neg1 : ℚ) : ℝ) := by
    push_cast
    ring
  rw [h1r] at h
  have herr : ((|1 - float_raw_tick_neg1| ^ 6 / (1 - |1 - float_raw_tick_neg1|) : ℚ) : ℝ) ≤
      ((1 / 2 ^ 76 : ℚ) : ℝ) := by
    rw [Rat.cast_le, abs_of_pos hxpos,
      div_le_iff₀ (by rw [float_raw_tick_neg1]; norm_num), float_raw_tick_neg1]
    norm_num
  have hgoal : ((-(taylor5 (1 - float_raw_tick_neg1)) : ℚ) : ℝ) -
      Real.log ((float_raw_tick_neg1 : ℚ) : ℝ) =
      -(((taylor5 (1 - float_raw_tick_neg1) : ℚ) : ℝ) +
        Real.log ((float_raw_tick_neg1 : ℚ) : ℝ)) := by
    push_cast
    ring
  rw [hgoal, abs_neg]
  exact h.trans herr

lemma log_b_near :
    |((-(taylor5 (1 - float_1_0001)) : ℚ) : ℝ) -
        Real.log ((float_1_0001 : ℚ) : ℝ)| ≤ ((1 / 2 ^ 76 : ℚ) : ℝ) := by
  have hxneg : (1 - float_1_0001 : ℚ) < 0 := by
    rw [float_1_0001]
    norm_num
  have hx0 : |(1 - float_1_0001 : ℚ)| < 1 := by
    rw [abs_of_neg hxneg, float_1_0001]
    norm_num
  have h := log_one_sub_near (1 - float_1_0001) hx0
  have h1r : (1 : ℝ) - ((1 - float_1_0001 : ℚ) : ℝ) = ((float_1_0001 : ℚ) : ℝ) := by
    push_cast
    ring
  rw [h1r] at h
  have herr : ((|1 - float_1_0001| ^ 6 / (1 - |1 - float_1_0001|) : ℚ) : ℝ) ≤
      ((1 / 2 ^ 76 : ℚ) : ℝ) := by
    rw [Rat.cast_le, abs_of_neg hxneg,
      div_le_iff₀ (by rw [float_1_0001]; norm_num), float_1_0001]
    norm_num
  have hgoal : ((-(taylor5 (1 - float_1_0001)) : ℚ) : ℝ) -
      Real.log ((float_1_0001 : ℚ) : ℝ) =
      -(((taylor5 (1 - float_1_0001) : ℚ) : ℝ) +
        Real.log ((float_1_0001 : ℚ) : ℝ)) := by
    push_cast
    ring
  rw [hgoal, abs_neg]
  exact h.trans herr

lemma sample_log_raw_faithful :
    FaithfulLogAt sample_log_impl float_raw_tick_neg1 log_eps := by
  unfold FaithfulLogAt sample_log_impl
  rw [if_neg (by rw [float_raw_tick_neg1, float_1_0001]; norm_num)]
  have hstep : |((-3689164359598693 / 2 ^ 65 : ℚ) : ℝ) -
      ((-(taylor5 (1 - float_raw_tick_neg1)) : ℚ) : ℝ)| ≤
      ((log_eps - 1 / 2 ^ 76 : ℚ) : ℝ) := by
    rw [← Rat.cast_sub, ← Rat.cast_abs, Rat.cast_le, abs_le]
    constructor <;>
      · simp only [taylor5, float_raw_tick_neg1, log_eps]
        norm_num
  calc |((-3689164359598693 / 2 ^ 65 : ℚ) : ℝ) -
        Real.log ((float_raw_tick_neg1 : ℚ) : ℝ)|
      ≤ |((-3689164359598693 / 2 ^ 65 : ℚ) : ℝ) -
          ((-(taylor5 (1 - float_raw_tick_neg1)) : ℚ) : ℝ)| +
        |((-(taylor5 (1 - float_raw_tick_neg1)) : ℚ) : ℝ) -
          Real.log ((float_raw_tick_neg1 : ℚ) : ℝ)| :=
        abs_sub_le _ _ _
    _ ≤ ((log_eps - 1 / 2 ^ 76 : ℚ) : ℝ) + ((1 / 2 ^ 76 : ℚ) : ℝ) :=
        add_le_add hstep log_raw_near
    _ = ((log_eps : ℚ) : ℝ) := by
        push_cast
        ring

lemma sample_log_b_faithful :
    FaithfulLogAt sample_log_impl float_1_0001 log_eps := by
  unfold FaithfulLogAt sample_log_impl
  rw [if_pos rfl]
  have hstep : |((1844582179798837 / 2 ^ 64 : ℚ) : ℝ) -
      ((-(taylor5 (1 - float_1_0001)) : ℚ) : ℝ)| ≤
      ((log_eps - 1 / 2 ^ 76 : ℚ) : ℝ) := by
    rw [← Rat.cast_sub, ← Rat.cast_abs, Rat.cast_le, abs_le]
    constructor <;>
      · simp only [taylor5, float_1_0001, log_eps]
        norm_num
  calc |((1844582179798837 / 2 ^ 64 : ℚ) : ℝ) -
        Real.log ((float_1_0001 : ℚ) : ℝ)|
      ≤ |((1844582179798837 / 2 ^ 64 : ℚ) : ℝ) -
          ((-(taylor5 (1 - float_1_0001)) : ℚ) : ℝ)| +
        |((-(taylor5 (1 - float_1_0001)) : ℚ) : ℝ) -
          Real.log ((float_1_0001 : ℚ) : ℝ)| :=
        abs_sub_le _ _ _
    _ ≤ ((log_eps - 1 / 2 ^ 76 : ℚ) : ℝ) + ((1 / 2 ^ 76 : ℚ) : ℝ) :=
        add_le_add hstep log_b_near
    _ = ((log_eps : ℚ) : ℝ) := by
        push_cast
        ring

lemma floor_float_log_ratio (L1 L2 : ℚ)
    (h1 : |((L1 : ℚ) : ℝ) - Real.log ((float_raw_tick_neg1 : ℚ) : ℝ)| ≤
      ((log_eps : ℚ) : ℝ))
    (h2 : |((L2 : ℚ) : ℝ) - Real.log ((float_1_0001 : ℚ) : ℝ)| ≤
      ((log_eps : ℚ) : ℝ)) :
    ⌊floatRound (L1 / L2)⌋ = -2 := by
  have hb1 : |L1 + taylor5 (1 - float_raw_tick_neg1)| ≤ log_eps + 1 / 2 ^ 76 := by
    have tri := abs_sub_le ((L1 : ℚ) : ℝ)
      (Real.log ((float_raw_tick_neg1 : ℚ) : ℝ))
      ((-(taylor5 (1 - float_raw_tick_neg1)) : ℚ) : ℝ)
    have hsw : |Real.log ((float_raw_tick_neg1 : ℚ) : ℝ) -
        ((-(taylor5 (1 - float_raw_tick_neg1)) : ℚ) : ℝ)| ≤ ((1 / 2 ^ 76 : ℚ) : ℝ) := by
      rw [abs_sub_comm]
      exact log_raw_near
    have hr : |((L1 + taylor5 (1 - float_raw_tick_neg1) : ℚ) : ℝ)| ≤
        ((log_eps + 1 / 2 ^ 76 : ℚ) : ℝ) := by
      have he : ((L1 + taylor5 (1 - float_raw_tick_neg1) : ℚ) : ℝ) =
          ((L1 : ℚ) : ℝ) - ((-(taylor5 (1 - float_raw_tick_neg1)) : ℚ) : ℝ) := by
        push_cast
        ring
      rw [he]
      calc |((L1 : ℚ) : ℝ) - ((-(taylor5 (1 - float_raw_tick_neg1)) : ℚ) : ℝ)|
          ≤ _ + _ := tri
        _ ≤ ((log_eps : ℚ) : ℝ) + ((1 / 2 ^ 76 : ℚ) : ℝ) := add_le_add h1 hsw
        _ = ((log_eps + 1 / 2 ^ 76 : ℚ) : ℝ) := by push_cast; ring
    exact_mod_cast hr
  have hb2 : |L2 + taylor5 (1 - float_1_0001)| ≤ log_eps + 1 / 2 ^ 76 := by
    have tri := abs_sub_le ((L2 : ℚ) : ℝ)
      (Real.log ((float_1_0001 : ℚ) : ℝ))
      ((-(taylor5 (1 - float_1_0001)) : ℚ) : ℝ)
    have hsw : |Real.log ((float_1_0001 : ℚ) : ℝ) -
        ((-(taylor5 (1 - float_1_0001)) : ℚ) : ℝ)| ≤ ((1 / 2 ^ 76 : ℚ) : ℝ) := by
      rw [abs_sub_comm]
      exact log_b_near
    have hr : |((L2 + taylor5 (1 - float_1_0001) : ℚ) : ℝ)| ≤
        ((log_eps + 1 / 2 ^ 76 : ℚ) : ℝ) := by
      have he : ((L2 + taylor5 (1 - float_1_0001) : ℚ) : ℝ) =
          ((L2 : ℚ) : ℝ) - ((-(taylor5 (1 - float_1_0001)) : ℚ) : ℝ) := by
        push_cast
        ring
      rw [he]
      calc |((L2 : ℚ) : ℝ) - ((-(taylor5 (1 - float_1_0001)) : ℚ) : ℝ)|
          ≤ _ + _ := tri
        _ ≤ ((log_eps : ℚ) : ℝ) + ((1 / 2 ^ 76 : ℚ) : ℝ) := add_le_add h2 hsw
        _ = ((log_eps + 1 / 2 ^ 76 : ℚ) : ℝ) := by push_cast; ring
    exact_mod_cast hr
  obtain ⟨hb1l, hb1r⟩ := abs_le.mp hb1
  obtain ⟨hb2l, hb2r⟩ := abs_le.mp hb2
  have hL2pos : 0 < L2 := by
    have hnum : (0 : ℚ) < -(taylor5 (1 - float_1_0001)) - (log_eps + 1 / 2 ^ 76) := by
      simp only [taylor5, float_1_0001, log_eps]
      norm_num
    linarith
  have hupper : L1 ≤ (-1 - 1 / 2 ^ 43) * L2 := by
    have hc : -(taylor5 (1 - float_raw_tick_neg1)) + (log_eps + 1 / 2 ^ 76) ≤
        (-1 - 1 / 2 ^ 43) *
          (-(taylor5 (1 - float_1_0001)) + (log_eps + 1 / 2 ^ 76)) := by
      simp only [taylor5, float_raw_tick_neg1, float_1_0001, log_eps]
      norm_num
    calc L1 ≤ -(taylor5 (1 - float_raw_tick_neg1)) + (log_eps + 1 / 2 ^ 76) := by
          linarith
      _ ≤ (-1 - 1 / 2 ^ 43) *
            (-(taylor5 (1 - float_1_0001)) + (log_eps + 1 / 2 ^ 76)) := hc
      _ ≤ (-1 - 1 / 2 ^ 43) * L2 :=
          mul_le_mul_of_nonpos_left (by linarith) (by norm_num)
  have hlower : (-3 / 2 : ℚ) * L2 ≤ L1 := by
    have hc : (-3 / 2 : ℚ) *
        (-(taylor5 (1 - float_1_0001)) - (log_eps + 1 / 2 ^ 76)) ≤
        -(taylor5 (1 - float_raw_tick_neg1)) - (log_eps + 1 / 2 ^ 76) := by
      simp only [taylor5, float_raw_tick_neg1, float_1_0001, log_eps]
      norm_num
    calc (-3 / 2 : ℚ) * L2
        ≤ (-3 / 2 : ℚ) *
            (-(taylor5 (1 - float_1_0001)) - (log_eps + 1 / 2 ^ 76)) :=
          mul_le_mul_of_nonpos_left (by linarith) (by norm_num)
      _ ≤ -(taylor5 (1 - float_raw_tick_neg1)) - (log_eps + 1 / 2 ^ 76) := hc
      _ ≤ L1 := by linarith
  have hrup : L1 / L2 ≤ -1 - 1 / 2 ^ 43 := (div_le_iff₀ hL2pos).mpr hupper
  have hrlo : (-3 / 2 : ℚ) ≤ L1 / L2 := (le_div_iff₀ hL2pos).mpr hlower
  have hrne : L1 / L2 ≠ 0 := by
    intro h0
    rw [h0] at hrup
    norm_num at hrup
  have habs : |L1 / L2| ≤ 3 / 2 := by
    rw [abs_le]
    constructor <;> linarith
  have hfr2 : |floatRound (L1 / L2) - L1 / L2| ≤ (3 / 2) / 2 ^ 52 := by
    refine le_trans (floatRound_near hrne) ?_
    gcongr
  obtain ⟨hf1, hf2⟩ := abs_le.mp hfr2
  have hsmall : ((3 : ℚ) / 2) / 2 ^ 52 ≤ 1 / 2 ^ 44 := by norm_num
  rw [Int.floor_eq_iff]
  constructor
  · push_cast
    linarith
  · push_cast
    have : (1 : ℚ) / 2 ^ 44 < 1 / 2 ^ 43 := by norm_num
    linarith

lemma price_to_tick_float_eval (log_impl : ℚ → ℚ)
    (h1 : FaithfulLogAt log_impl float_raw_tick_neg1 log_eps)
    (h2 : FaithfulLogAt log_impl float_1_0001 log_eps) :
    price_to_tick_float log_impl (tick_to_raw_price_pool_t1_t0 (-1)) = some (-2) := by
  unfold price_to_tick_float
  rw [if_neg (by norm_num [tick_to_raw_price_pool_t1_t0, qbase]),
    floatRound_raw_neg1, floatRound_1_0001]
  unfold FaithfulLogAt at h1 h2
  rw [floor_float_log_ratio _ _ h1 h2]

/-- C8 counterexample: under binary64 evaluation the round trip fails at
tick -1.  With the doubles glibc actually returns for the two logarithms
(each proved within log_eps of the true logarithm), the program computes
floor(log(float(1.0001 ** -1), 1.0001)) = -2, not -1: the double nearest
1.0001 is below the exact 1.0001, so the computed ratio falls below -1. -/
theorem price_to_tick_float_round_trip_cex :
    FaithfulLogAt sample_log_impl float_raw_tick_neg1 log_eps ∧
      FaithfulLogAt sample_log_impl float_1_0001 log_eps ∧
      price_to_tick_float sample_log_impl (tick_to_raw_price_pool_t1_t0 (-1)) =
        some (-2) ∧ (some (-2 : ℤ)) ≠ some (-1 : ℤ) :=
  ⟨sample_log_raw_faithful, sample_log_b_faithful,
    price_to_tick_float_eval sample_log_impl sample_log_raw_faithful
      sample_log_b_faithful, by decide⟩

/-- C8 (amended): price_to_tick fails (none) exactly on raw prices at or
below 0 — the guard precedes any float conversion — but the round-trip
identity does not survive binary64 evaluation: at tick -1, every libm
logarithm within log_eps (eight ulps) of the true logarithm makes the
program return -2 instead of -1, so priceToTick(tickToRawPrice(t)) = t
fails for negative ticks. -/
theorem price_to_tick_float_amended :
    (∀ (log_impl : ℚ → ℚ) (p : ℚ),
      price_to_tick_float log_impl p = none ↔ p ≤ 0) ∧
    (∀ log_impl : ℚ → ℚ,
      FaithfulLogAt log_impl float_raw_tick_neg1 log_eps →
      FaithfulLogAt log_impl float_1_0001 log_eps →
      price_to_tick_float log_impl (tick_to_raw_price_pool_t1_t0 (-1)) =
        some (-2)) := by
  constructor
  · intro log_impl p
    unfold price_to_tick_float
    by_cases hp : p ≤ 0
    · simp [hp]
    · simp [hp]
  · intro log_impl h1 h2
    exact price_to_tick_float_eval log_impl h1 h2

/-- C8 witness: the amended theorem applied to the sample (glibc) libm
values, whose faithfulness is discharged by the series-bound lemmas. -/
theorem price_to_tick_float_amended_witness :
    (FaithfulLogAt sample_log_impl float_raw_tick_neg1 log_eps ∧
      FaithfulLogAt sample_log_impl float_1_0001 log_eps) ∧
      price_to_tick_float sample_log_impl (tick_to_raw_price_pool_t1_t0 (-1)) =
        some (-2) :=
  ⟨⟨sample_log_raw_faithful, sample_log_b_faithful⟩,
    price_to_tick_float_amended.2 sample_log_impl sample_log_raw_faithful
      sample_log_b_faithful⟩

end DefiBnb
